import Mathlib

/-!
Verification of the daggr graph-canvas component
(`src/daggr/canvas-component/frontend/Index.svelte`).

The Svelte component is shallowly embedded: its reactive `$state` records
become explicit state structures, its handlers become pure functions from
state (plus event data) to state, and JavaScript numbers become exact
rationals.  Records keyed by strings (`pendingRunIds`, `nodeResults`, ...)
are modelled as total functions with the JavaScript "absent" value mapped
to the natural default (`[]` / `none`); this is observationally equal to
the source, which treats absent and empty entries alike everywhere it
reads them.
-/

namespace Daggr

/-- A port of a graph node (`interface Port`). -/
structure Port where
  name : String
deriving DecidableEq, Repr

/-- An embedded widget descriptor (`interface GradioComponentData`).
The widget payload is opaque to the canvas logic; only non-null-ness of
`value` is ever inspected, so the value is modelled as `Option String`. -/
structure GradioComponentData where
  component : String
  port_name : String
  value : Option String
deriving DecidableEq, Repr

/-- A workflow graph node (`interface GraphNode`), restricted to the fields
the canvas logic reads. -/
structure GraphNode where
  id : String
  name : String
  inputs : List Port
  outputs : List String
  input_components : List GradioComponentData
  output_components : List GradioComponentData
  x : ℚ
  y : ℚ
  is_input_node : Bool
deriving DecidableEq, Repr

/-- A directed edge (`interface GraphEdge`). -/
structure GraphEdge where
  id : String
  from_node : String
  from_port : String
  to_node : String
  to_port : String
  is_scattered : Bool
  is_gathered : Bool
deriving DecidableEq, Repr

/-- Per-node, per-port user-entered input values (`inputValues`). -/
abbrev InputMap := String → Option (String → Option String)

/-- Per-node, per-item, per-field item-list values (`itemListValues`). -/
abbrev ItemListValues := String → Option (Nat → String → Option String)

/-- The engine snapshot (`interface CanvasData`), including the dynamic
fields the component reads or writes on it (`run_id`, `completed_node`,
`selected_results`). -/
structure CanvasData where
  name : String
  nodes : List GraphNode
  edges : List GraphEdge
  inputs : InputMap
  item_list_values : ItemListValues
  run_to_node : Option String
  run_id : Option String
  completed_node : Option String
  selected_results : String → Option Nat

/-- The execution-run tracker state: the component's `$state` records plus
the module-level `globalProcessedSet` dedup set. -/
structure TrackerState where
  pendingRunIds : String → List String
  runIdToNodes : String → Option (List String)
  nodeResults : String → List (List GradioComponentData)
  selectedResultIndex : String → Option Nat
  processedSet : List String

/-- The name normalization in `getAncestors`: two chained global
single-character `String.replace` calls turning every space and every
hyphen into an underscore, equivalent to mapping each character. -/
def normalizeName (s : String) : String :=
  ⟨s.data.map (fun c => if c = ' ' ∨ c = '-' then '_' else c)⟩

/-- The inner `for (const edge of edges)` loop of `getAncestors`: scans the
edge list once for edges whose `to_node` equals the normalized current
name, resolves the source node by id, and collects new non-input source
names.  The visit stack is kept head-first (the JS code pushes to and pops
from the array end; consing new names at the head and popping the head
yields the identical visit order). -/
def processEdges (edges : List GraphEdge) (nodes : List GraphNode) (current : String)
    (anc stack : List String) : List String × List String :=
  match edges with
  | [] => (anc, stack)
  | e :: rest =>
    if e.to_node = normalizeName current then
      match nodes.find? (fun n => n.id == e.from_node) with
      | some sourceNode =>
        if sourceNode.is_input_node = false ∧ sourceNode.name ∉ anc then
          processEdges rest nodes current (anc ++ [sourceNode.name]) (sourceNode.name :: stack)
        else
          processEdges rest nodes current anc stack
      | none => processEdges rest nodes current anc stack
    else
      processEdges rest nodes current anc stack

/-- The `while (toVisit.length > 0)` loop of `getAncestors`.  The loop pops
one stack entry per iteration and pushes only names newly added to the
ancestor set, so it performs at most `nodes.length + 1` iterations; the
fuel argument is instantiated with that bound. -/
def getAncestorsGo (edges : List GraphEdge) (nodes : List GraphNode) :
    Nat → List String → List String → List String
  | 0, anc, _ => anc
  | _ + 1, anc, [] => anc
  | fuel + 1, anc, current :: stack =>
    let p := processEdges edges nodes current anc stack
    getAncestorsGo edges nodes fuel p.1 p.2

/-- `getAncestors(nodeName)`: reverse traversal over the edge list,
collecting non-input source-node names. -/
def getAncestors (edges : List GraphEdge) (nodes : List GraphNode)
    (nodeName : String) : List String :=
  getAncestorsGo edges nodes (nodes.length + 1) [] [nodeName]

/-- `nodesToExecute.filter(n => !nodeResults[n] || nodeResults[n].length === 0)`
in `handleRunToNode`, with `nodesToExecute = [...ancestors, nodeName]`. -/
def nodesToRunFor (edges : List GraphEdge) (nodes : List GraphNode)
    (nodeResults : String → List (List GradioComponentData))
    (nodeName : String) : List String :=
  (getAncestors edges nodes nodeName ++ [nodeName]).filter
    (fun n => (nodeResults n).isEmpty)

/-- `{...gradio.props.value.inputs, ...inputValues}`: a shallow object
spread; a node entry in the overlay wholly replaces the base entry. -/
def mergeInputs (base overlay : InputMap) : InputMap :=
  fun node =>
    match overlay node with
    | some v => some v
    | none => base node

/-- `handleRunToNode(e, nodeName)`: mints no randomness here — the freshly
minted run id (`name_timestamp_random` in the source) is passed in as a
parameter.  Returns the updated tracker state and the outbound value
dispatched to the engine (or `none` when `gradio.props.value` is absent,
in which case nothing is dispatched but the local state is still
updated, exactly as in the source). -/
def handleRunToNode (s : TrackerState) (nodes : List GraphNode) (edges : List GraphEdge)
    (value : Option CanvasData) (inputValues : InputMap) (itemListValues : ItemListValues)
    (nodeName runId : String) : TrackerState × Option CanvasData :=
  let nodesToRun := nodesToRunFor edges nodes s.nodeResults nodeName
  let pending := nodesToRun.foldl
    (fun p n => Function.update p n (p n ++ [runId])) s.pendingRunIds
  let runMap := Function.update s.runIdToNodes runId (some nodesToRun)
  let out := value.map (fun v =>
    { v with
      inputs := mergeInputs v.inputs inputValues
      item_list_values := itemListValues
      run_to_node := some nodeName
      run_id := some runId
      completed_node := none
      selected_results := s.selectedResultIndex })
  ({ s with pendingRunIds := pending, runIdToNodes := runMap }, out)

/-- The dedup key `` `${runId}:${completedNode}` ``. -/
def completionKey (runId completedNode : String) : String :=
  runId ++ ":" ++ completedNode

/-- The `runIdToNodes` retirement step of the completion effect: when every
executed node of the run has a dedup entry, the run-id mapping is deleted.
(The source additionally schedules a `setTimeout` that purges the dedup
keys after a 1000 ms grace delay; that deferred purge runs as a separate
later event on the host event loop and is not part of the synchronous
ingestion step modelled here.) -/
def retireRun (runIdToNodes : String → Option (List String)) (processed : List String)
    (runId : String) : String → Option (List String) :=
  match runIdToNodes runId with
  | some executedNodes =>
    if executedNodes.all (fun n => processed.contains (completionKey runId n)) then
      Function.update runIdToNodes runId none
    else
      runIdToNodes
  | none => runIdToNodes

/-- The result-snapshot step of the completion effect: if the completed
node is found in the snapshot and has at least one non-null output value,
append a shallow-copied snapshot of its output components and select the
new last index. -/
def resultAppend (nodeResults : String → List (List GradioComponentData))
    (selectedResultIndex : String → Option Nat)
    (dnodes : List GraphNode) (completedNode : String) :
    (String → List (List GradioComponentData)) × (String → Option Nat) :=
  match dnodes.find? (fun n => n.name == completedNode) with
  | some node =>
    if 0 < node.output_components.length ∧
        node.output_components.any (fun c => c.value.isSome) = true then
      let resultSnapshot := node.output_components.map (fun c => c)
      let newResults := nodeResults completedNode ++ [resultSnapshot]
      (Function.update nodeResults completedNode newResults,
       Function.update selectedResultIndex completedNode (some (newResults.length - 1)))
    else
      (nodeResults, selectedResultIndex)
  | none => (nodeResults, selectedResultIndex)

/-- The completion-ingestion `$effect`: processes one inbound value.  A
missing value, a missing or empty `run_id`/`completed_node` (both falsy in
JS), or an already-consumed dedup key leaves the state untouched;
otherwise the key is marked consumed, the run id is removed from the
completed node's pending queue, the run mapping is retired when fully
consumed, and a result snapshot is appended when a non-null output
exists. -/
def processCompletion (s : TrackerState) (data : Option CanvasData) : TrackerState :=
  match data with
  | none => s
  | some d =>
    match d.run_id, d.completed_node with
    | some runId, some completedNode =>
      if runId = "" ∨ completedNode = "" then s
      else
        if completionKey runId completedNode ∈ s.processedSet then s
        else
          let processed := s.processedSet ++ [completionKey runId completedNode]
          let pending := Function.update s.pendingRunIds completedNode
            ((s.pendingRunIds completedNode).filter (fun i => i != runId))
          let runMap := retireRun s.runIdToNodes processed runId
          let rs := resultAppend s.nodeResults s.selectedResultIndex d.nodes completedNode
          { pendingRunIds := pending
            runIdToNodes := runMap
            nodeResults := rs.1
            selectedResultIndex := rs.2
            processedSet := processed }
    | _, _ => s

/-- `getSelectedResults(node)`: the currently selected result snapshot, or
the live engine-supplied output components when no history exists or the
selected index is out of range. -/
def getSelectedResults (nodeResults : String → List (List GradioComponentData))
    (selectedResultIndex : String → Option Nat) (node : GraphNode) :
    List GradioComponentData :=
  let results := nodeResults node.name
  if results.isEmpty then node.output_components
  else
    let idx := (selectedResultIndex node.name).getD (results.length - 1)
    results.getD idx node.output_components

/-- `getComponentsToRender(node)`: input components for input nodes,
otherwise the selected results. -/
def getComponentsToRender (nodeResults : String → List (List GradioComponentData))
    (selectedResultIndex : String → Option Nat) (node : GraphNode) :
    List GradioComponentData :=
  if node.is_input_node = true ∧ node.input_components ≠ [] then
    node.input_components
  else getSelectedResults nodeResults selectedResultIndex node

/-- Node layout constants (shared with the CSS). -/
def NODE_WIDTH : ℚ := 220
/-- Header strip height. -/
def HEADER_HEIGHT : ℚ := 36
/-- Header bottom border. -/
def HEADER_BORDER : ℚ := 1
/-- Body top padding. -/
def BODY_PADDING_TOP : ℚ := 8
/-- Height of one port row. -/
def PORT_ROW_HEIGHT : ℚ := 22
/-- Height of one embedded widget row. -/
def EMBEDDED_COMPONENT_HEIGHT : ℚ := 60

/-- `getNodeHeight(node)`. -/
def getNodeHeight (nodeResults : String → List (List GradioComponentData))
    (selectedResultIndex : String → Option Nat) (node : GraphNode) : ℚ :=
  let portRows : Nat := max (max node.inputs.length node.outputs.length) 1
  let componentsToRender := getComponentsToRender nodeResults selectedResultIndex node
  let embeddedHeight : ℚ := (componentsToRender.length : ℚ) * EMBEDDED_COMPONENT_HEIGHT
  HEADER_HEIGHT + HEADER_BORDER + BODY_PADDING_TOP + (portRows : ℚ) * PORT_ROW_HEIGHT +
    embeddedHeight + BODY_PADDING_TOP

/-- The pan/zoom transform (`let transform = $state({x: 0, y: 0, scale: 1})`). -/
structure Transform where
  x : ℚ
  y : ℚ
  scale : ℚ
deriving DecidableEq, Repr

/-- `zoomIn()`: `transform.scale = Math.min(3, transform.scale * 1.2)`. -/
def zoomIn (t : Transform) : Transform :=
  { t with scale := min 3 (t.scale * (6 / 5)) }

/-- `zoomOut()`: `transform.scale = Math.max(0.2, transform.scale / 1.2)`. -/
def zoomOut (t : Transform) : Transform :=
  { t with scale := max (1 / 5) (t.scale / (6 / 5)) }

/-- `handleWheel(e)`: `mouseX`/`mouseY` are the pointer position relative
to the canvas rectangle (`e.clientX - rect.left`, `e.clientY - rect.top`);
the per-tick factor is 0.97 for wheel-down and 1.03 otherwise, and the new
scale is clamped into `[0.2, 3]`. -/
def handleWheel (t : Transform) (mouseX mouseY deltaY : ℚ) : Transform :=
  let canvasX := (mouseX - t.x) / t.scale
  let canvasY := (mouseY - t.y) / t.scale
  let delta : ℚ := if 0 < deltaY then 97 / 100 else 103 / 100
  let newScale := max (1 / 5) (min 3 (t.scale * delta))
  { x := mouseX - canvasX * newScale
    y := mouseY - canvasY * newScale
    scale := newScale }

/-- The bounding-box accumulation loop of `zoomToFit`, folded from the
first node of the (non-empty) node list.  The source initializes the
accumulators with plus-or-minus Infinity, which on a non-empty list is
equivalent to starting the fold at the first node's rectangle.  Returns
`(minX, minY, maxX, maxY)`. -/
def contentBounds (nodeResults : String → List (List GradioComponentData))
    (selectedResultIndex : String → Option Nat) (n0 : GraphNode)
    (rest : List GraphNode) : ℚ × ℚ × ℚ × ℚ :=
  rest.foldl
    (fun acc node =>
      (min acc.1 node.x,
       min acc.2.1 node.y,
       max acc.2.2.1 (node.x + NODE_WIDTH),
       max acc.2.2.2 (node.y + getNodeHeight nodeResults selectedResultIndex node)))
    (n0.x, n0.y, n0.x + NODE_WIDTH,
     n0.y + getNodeHeight nodeResults selectedResultIndex n0)

/-- `zoomToFit()`: a no-op when there are zero nodes or the canvas element
has not been measured (`canvasSize = none`); otherwise fits the union
bounding box into the canvas minus a 40-unit padding on each side, capping
the scale at 1.5 and flooring it at 0.2.  Note the recentering offset uses
the pre-floor scale, exactly as in the source. -/
def zoomToFit (t : Transform) (nodes : List GraphNode)
    (nodeResults : String → List (List GradioComponentData))
    (selectedResultIndex : String → Option Nat)
    (canvasSize : Option (ℚ × ℚ)) : Transform :=
  match canvasSize, nodes with
  | none, _ => t
  | some _, [] => t
  | some (canvasWidth, canvasHeight), n0 :: rest =>
    let padding : ℚ := 40
    let b := contentBounds nodeResults selectedResultIndex n0 rest
    let contentWidth := b.2.2.1 - b.1
    let contentHeight := b.2.2.2 - b.2.1
    let scaleX := (canvasWidth - padding * 2) / contentWidth
    let scaleY := (canvasHeight - padding * 2) / contentHeight
    let newScale := min (min scaleX scaleY) (3 / 2)
    let centerX := (b.1 + b.2.2.1) / 2
    let centerY := (b.2.1 + b.2.2.2) / 2
    { x := canvasWidth / 2 - centerX * newScale
      y := canvasHeight / 2 - centerY * newScale
      scale := max (1 / 5) newScale }

/-- The staleness guard of the `nodes` and `edges` `$derived.by` blocks: a
non-empty incoming list replaces and is remembered as the last known good
value; an empty or absent list leaves the previous value in effect.  The
returned list is both the effective list and the new last-known-good value
(in the source they are always assigned the same array). -/
def latchNonempty {α : Type} (lastValid : List α) (incoming : Option (List α)) :
    List α :=
  match incoming with
  | some xs => if 0 < xs.length then xs else lastValid
  | none => lastValid

/-! ### Concrete example data

A three-node chain `Input → X → Y` as the engine would deliver it, used to
instantiate the theorems below on concrete inputs. -/

/-- A parametric three-node chain: an input node and two function nodes. -/
def chainNodes (ia aName ib bName ic cName : String) : List GraphNode :=
  [{ id := ia, name := aName, inputs := [], outputs := ["out"],
     input_components := [], output_components := [], x := 0, y := 0,
     is_input_node := true },
   { id := ib, name := bName, inputs := [⟨"in"⟩], outputs := ["out"],
     input_components := [], output_components := [], x := 300, y := 0,
     is_input_node := false },
   { id := ic, name := cName, inputs := [⟨"in"⟩], outputs := [],
     input_components := [], output_components := [], x := 600, y := 0,
     is_input_node := false }]

/-- The two edges of the chain, pointing at the second and third node. -/
def chainEdges (ia ib ic : String) : List GraphEdge :=
  [{ id := "e1", from_node := ia, from_port := "out", to_node := ib,
     to_port := "in", is_scattered := false, is_gathered := false },
   { id := "e2", from_node := ib, from_port := "out", to_node := ic,
     to_port := "in", is_scattered := false, is_gathered := false }]

/-- The concrete chain `a (input) → b → c` with ids equal to names. -/
def demoNodes : List GraphNode := chainNodes "a" "a" "b" "b" "c" "c"

/-- Edges of the concrete chain. -/
def demoEdges : List GraphEdge := chainEdges "a" "b" "c"

/-- The tracker state at component start-up. -/
def emptyTracker : TrackerState :=
  { pendingRunIds := fun _ => []
    runIdToNodes := fun _ => none
    nodeResults := fun _ => []
    selectedResultIndex := fun _ => none
    processedSet := [] }

/-- A sample output component carrying a non-null value. -/
def outComp : GradioComponentData :=
  { component := "textbox", port_name := "out", value := some "ok" }

/-- Node `b` of the chain as reported back with a produced output value. -/
def nodeBDone : GraphNode :=
  { id := "b", name := "b", inputs := [⟨"in"⟩], outputs := ["out"],
    input_components := [], output_components := [outComp], x := 300, y := 0,
    is_input_node := false }

/-- A snapshot carrying a completion notification for `completedNode` under
run `runId`, with `dnodes` as the node list reported by the engine. -/
def mkNotification (runId completedNode : String) (dnodes : List GraphNode) :
    CanvasData :=
  { name := "", nodes := dnodes, edges := [], inputs := fun _ => none,
    item_list_values := fun _ => none, run_to_node := none,
    run_id := some runId, completed_node := some completedNode,
    selected_results := fun _ => none }

/-- A sample inbound snapshot of the concrete chain. -/
def demoValue : CanvasData :=
  { name := "flow", nodes := demoNodes, edges := demoEdges,
    inputs := fun _ => none, item_list_values := fun _ => none,
    run_to_node := none, run_id := none, completed_node := none,
    selected_results := fun _ => none }

/-! ### C5: staleness guard -/

/-- C5: for every sequence of inbound snapshots, a snapshot holding a
non-empty list followed by a snapshot whose list is empty or absent leaves
the first snapshot's list in effect, and a non-empty list replaces the
held value and becomes the new last-known-good value.  (The same
`latchNonempty` law is instantiated for the `nodes` and for the `edges`
derivation; they are textually identical in the source.) -/
theorem staleness_guard_latch {α : Type} (lastValid ns1 : List α)
    (inc2 : Option (List α)) (h1 : ns1 ≠ [])
    (h2 : inc2 = some [] ∨ inc2 = none) :
    latchNonempty lastValid (some ns1) = ns1 ∧
    latchNonempty (latchNonempty lastValid (some ns1)) inc2 = ns1 := by
  have hlen : 0 < ns1.length := List.length_pos.mpr h1
  constructor
  · simp [latchNonempty, hlen]
  · rcases h2 with h | h <;> subst h <;> simp [latchNonempty, hlen]

/-- Witness for C5 at a concrete nonempty snapshot followed by an empty
one. -/
theorem staleness_guard_latch_witness :
    latchNonempty ([] : List GraphNode) (some demoNodes) = demoNodes ∧
    latchNonempty (latchNonempty ([] : List GraphNode) (some demoNodes))
      (some []) = demoNodes :=
  staleness_guard_latch [] demoNodes (some [])
    (by simp [demoNodes, chainNodes]) (Or.inl rfl)

/-! ### C6: zoom-at-pointer invariant -/

/-- C6: for every transform with scale in `[0.2, 3]`, every pointer
position and every wheel direction, the logical canvas point that was
under the pointer before `handleWheel` — `(pointer − offset) / oldScale` —
is still under the pointer afterwards.  Over exact rational arithmetic the
invariant holds exactly (hence a fortiori within floating-point
tolerance), including when the new scale saturates the clamp at 0.2 or
3. -/
theorem zoom_at_pointer_invariant (t : Transform) (mouseX mouseY deltaY : ℚ)
    (hlo : 1 / 5 ≤ t.scale) (hhi : t.scale ≤ 3) :
    (mouseX - (handleWheel t mouseX mouseY deltaY).x) /
        (handleWheel t mouseX mouseY deltaY).scale = (mouseX - t.x) / t.scale ∧
    (mouseY - (handleWheel t mouseX mouseY deltaY).y) /
        (handleWheel t mouseX mouseY deltaY).scale = (mouseY - t.y) / t.scale := by
  have hs : (0 : ℚ) < t.scale := lt_of_lt_of_le (by norm_num) hlo
  have hns : (0 : ℚ) <
      max (1 / 5) (min 3 (t.scale * (if 0 < deltaY then 97 / 100 else 103 / 100))) :=
    lt_of_lt_of_le (by norm_num) (le_max_left _ _)
  constructor <;>
  · simp only [handleWheel]
    rw [sub_sub_cancel, mul_div_cancel_right₀ _ (ne_of_gt hns)]

/-- Witness for C6 at scale 1, pointer (10, 20), wheel-down. -/
theorem zoom_at_pointer_invariant_witness :
    ((1 / 5 : ℚ) ≤ 1 ∧ (1 : ℚ) ≤ 3) ∧
    ((10 - (handleWheel ⟨0, 0, 1⟩ 10 20 1).x) /
        (handleWheel ⟨0, 0, 1⟩ 10 20 1).scale =
      (10 - (Transform.mk 0 0 1).x) / (Transform.mk 0 0 1).scale ∧
     (20 - (handleWheel ⟨0, 0, 1⟩ 10 20 1).y) /
        (handleWheel ⟨0, 0, 1⟩ 10 20 1).scale =
      (20 - (Transform.mk 0 0 1).y) / (Transform.mk 0 0 1).scale) :=
  ⟨⟨by norm_num, by norm_num⟩,
   zoom_at_pointer_invariant ⟨0, 0, 1⟩ 10 20 1 (by norm_num) (by norm_num)⟩

/-! ### C7: scale clamping -/

/-- C7: every mutating viewport operation — wheel zoom, the discrete
zoom-in and zoom-out buttons, and fit-to-content — leaves the scale in
`[0.2, 3]` whenever it lay in that interval before. -/
theorem scale_clamped_in_range (t : Transform) (mouseX mouseY deltaY : ℚ)
    (nodes : List GraphNode)
    (nodeResults : String → List (List GradioComponentData))
    (sel : String → Option Nat) (canvasSize : Option (ℚ × ℚ))
    (hlo : 1 / 5 ≤ t.scale) (hhi : t.scale ≤ 3) :
    (1 / 5 ≤ (zoomIn t).scale ∧ (zoomIn t).scale ≤ 3) ∧
    (1 / 5 ≤ (zoomOut t).scale ∧ (zoomOut t).scale ≤ 3) ∧
    (1 / 5 ≤ (handleWheel t mouseX mouseY deltaY).scale ∧
      (handleWheel t mouseX mouseY deltaY).scale ≤ 3) ∧
    (1 / 5 ≤ (zoomToFit t nodes nodeResults sel canvasSize).scale ∧
      (zoomToFit t nodes nodeResults sel canvasSize).scale ≤ 3) := by
  refine ⟨⟨?_, ?_⟩, ⟨?_, ?_⟩, ⟨?_, ?_⟩, ?_⟩
  · exact le_min (by norm_num) (by linarith)
  · exact le_trans (min_le_left _ _) (by norm_num)
  · simp only [zoomOut]
    exact le_max_left _ _
  · simp only [zoomOut]
    refine max_le (by norm_num) ?_
    rw [div_le_iff₀ (by norm_num : (0 : ℚ) < 6 / 5)]
    linarith
  · simp only [handleWheel]
    exact le_max_left _ _
  · simp only [handleWheel]
    exact max_le (by norm_num) (le_trans (min_le_left _ _) (by norm_num))
  · rcases canvasSize with _ | ⟨cw, ch⟩
    · exact ⟨hlo, hhi⟩
    rcases nodes with _ | ⟨n0, rest⟩
    · exact ⟨hlo, hhi⟩
    refine ⟨le_max_left _ _, ?_⟩
    exact max_le (by norm_num) (le_trans (min_le_right _ _) (by norm_num))

/-- Witness for C7 at scale 1 with the concrete chain. -/
theorem scale_clamped_in_range_witness :
    ((1 / 5 : ℚ) ≤ 1 ∧ (1 : ℚ) ≤ 3) ∧
    ((1 / 5 ≤ (zoomIn ⟨0, 0, 1⟩).scale ∧ (zoomIn ⟨0, 0, 1⟩).scale ≤ 3) ∧
     (1 / 5 ≤ (zoomOut ⟨0, 0, 1⟩).scale ∧ (zoomOut ⟨0, 0, 1⟩).scale ≤ 3) ∧
     (1 / 5 ≤ (handleWheel ⟨0, 0, 1⟩ 10 20 1).scale ∧
       (handleWheel ⟨0, 0, 1⟩ 10 20 1).scale ≤ 3) ∧
     (1 / 5 ≤ (zoomToFit ⟨0, 0, 1⟩ demoNodes emptyTracker.nodeResults
         emptyTracker.selectedResultIndex (some (800, 600))).scale ∧
       (zoomToFit ⟨0, 0, 1⟩ demoNodes emptyTracker.nodeResults
         emptyTracker.selectedResultIndex (some (800, 600))).scale ≤ 3)) :=
  ⟨⟨by norm_num, by norm_num⟩,
   scale_clamped_in_range ⟨0, 0, 1⟩ 10 20 1 demoNodes emptyTracker.nodeResults
     emptyTracker.selectedResultIndex (some (800, 600)) (by norm_num) (by norm_num)⟩

/-! ### C1: idempotent completion ingestion -/

/-- Unfolding of `processCompletion` on a fresh (not yet consumed)
well-formed notification. -/
lemma processCompletion_not_consumed_eq (s : TrackerState) (d : CanvasData)
    (rid cn : String) (hri : d.run_id = some rid) (hcn : d.completed_node = some cn)
    (hr : ¬rid = "") (hc : ¬cn = "")
    (hk : completionKey rid cn ∉ s.processedSet) :
    processCompletion s (some d) =
      { pendingRunIds := Function.update s.pendingRunIds cn
          ((s.pendingRunIds cn).filter (fun i => i != rid))
        runIdToNodes := retireRun s.runIdToNodes
          (s.processedSet ++ [completionKey rid cn]) rid
        nodeResults := (resultAppend s.nodeResults s.selectedResultIndex d.nodes cn).1
        selectedResultIndex :=
          (resultAppend s.nodeResults s.selectedResultIndex d.nodes cn).2
        processedSet := s.processedSet ++ [completionKey rid cn] } := by
  simp only [processCompletion, hri, hcn]
  rw [if_neg (by simp [hr, hc]), if_neg hk]

/-- A notification whose dedup key is already consumed leaves the state
untouched. -/
lemma processCompletion_consumed (s : TrackerState) (d : CanvasData)
    (rid cn : String) (hri : d.run_id = some rid) (hcn : d.completed_node = some cn)
    (hk : completionKey rid cn ∈ s.processedSet) :
    processCompletion s (some d) = s := by
  simp only [processCompletion, hri, hcn]
  split <;> simp [hk]

/-- Processing the same inbound value twice equals processing it once. -/
lemma processCompletion_idem (s : TrackerState) (d : Option CanvasData) :
    processCompletion (processCompletion s d) d = processCompletion s d := by
  rcases d with _ | d
  · rfl
  rcases hri : d.run_id with _ | rid
  · have h : ∀ st : TrackerState, processCompletion st (some d) = st := fun st => by
      simp [processCompletion, hri]
    rw [h, h]
  rcases hcn : d.completed_node with _ | cn
  · have h : ∀ st : TrackerState, processCompletion st (some d) = st := fun st => by
      simp [processCompletion, hri, hcn]
    rw [h, h]
  by_cases hr : rid = ""
  · have h : ∀ st : TrackerState, processCompletion st (some d) = st := fun st => by
      simp only [processCompletion, hri, hcn]
      rw [if_pos (Or.inl hr)]
    rw [h, h]
  by_cases hc : cn = ""
  · have h : ∀ st : TrackerState, processCompletion st (some d) = st := fun st => by
      simp only [processCompletion, hri, hcn]
      rw [if_pos (Or.inr hc)]
    rw [h, h]
  by_cases hk : completionKey rid cn ∈ s.processedSet
  · have h := processCompletion_consumed s d rid cn hri hcn hk
    rw [h, h]
  · rw [processCompletion_not_consumed_eq s d rid cn hri hcn hr hc hk]
    exact processCompletion_consumed _ d rid cn hri hcn (by simp)

/-- C1: completion ingestion is idempotent — delivering a notification
carrying a `(run_id, completed_node)` pair `n ≥ 1` times leaves the whole
tracker state (in particular `pendingRunIds`, `nodeResults` and
`selectedResultIndex`) exactly as delivering it once; the duplicate
deliveries mutate nothing and re-append nothing to history. -/
theorem completion_ingestion_idempotent (s : TrackerState) (d : CanvasData)
    (rid cn : String) (h1 : d.run_id = some rid) (h2 : d.completed_node = some cn)
    (n : ℕ) (hn : 1 ≤ n) :
    (fun st => processCompletion st (some d))^[n] s = processCompletion s (some d) := by
  induction n with
  | zero => omega
  | succ k ih =>
    rw [Function.iterate_succ_apply']
    rcases Nat.eq_zero_or_pos k with hk | hk
    · subst hk
      simp
    · rw [ih hk]
      exact processCompletion_idem s (some d)

/-- Witness for C1: the completion of node `b` under run `r1` delivered
twice to the fresh tracker equals delivering it once. -/
theorem completion_ingestion_idempotent_witness :
    (fun st => processCompletion st (some (mkNotification "r1" "b" [nodeBDone])))^[2]
        emptyTracker =
      processCompletion emptyTracker (some (mkNotification "r1" "b" [nodeBDone])) :=
  completion_ingestion_idempotent emptyTracker (mkNotification "r1" "b" [nodeBDone])
    "r1" "b" rfl rfl 2 (by norm_num)

/-! ### C10: ancestry lookup keys on normalized display names -/

/-- When no edge's `to_node` equals the normalized current name, the edge
scan changes nothing. -/
lemma processEdges_no_match (edges : List GraphEdge) (nodes : List GraphNode)
    (current : String) (anc stack : List String)
    (h : ∀ e ∈ edges, e.to_node ≠ normalizeName current) :
    processEdges edges nodes current anc stack = (anc, stack) := by
  induction edges with
  | nil => rfl
  | cons e rest ih =>
    simp only [processEdges]
    rw [if_neg (h e (by simp))]
    exact ih fun e' he' => h e' (by simp [he'])

/-- The traversal loop with an empty visit stack returns the accumulated
ancestor set, for any fuel. -/
lemma getAncestorsGo_nil_stack (edges : List GraphEdge) (nodes : List GraphNode)
    (fuel : Nat) (anc : List String) :
    getAncestorsGo edges nodes fuel anc [] = anc := by
  cases fuel <;> rfl

/-- C10 (implicit): `getAncestors` follows an edge backward only when the
edge's `to_node` equals the node's display name with spaces and hyphens
replaced by underscores — the target's id is never consulted.  Hence for a
graph in which no edge's `to_node` equals that normalization of a node's
name (e.g. the incoming edges use a differing node id), `getAncestors` of
the name is empty, and triggering a run to the node marks only the node
itself pending. -/
theorem ancestors_empty_on_id_name_mismatch (edges : List GraphEdge)
    (nodes : List GraphNode) (s : TrackerState) (value : Option CanvasData)
    (iv : InputMap) (ilv : ItemListValues) (n runId : String)
    (hmm : ∀ e ∈ edges, e.to_node ≠ normalizeName n)
    (hres : s.nodeResults n = []) :
    getAncestors edges nodes n = [] ∧
    nodesToRunFor edges nodes s.nodeResults n = [n] ∧
    (handleRunToNode s nodes edges value iv ilv n runId).1.pendingRunIds n =
      s.pendingRunIds n ++ [runId] ∧
    ∀ m, m ≠ n →
      (handleRunToNode s nodes edges value iv ilv n runId).1.pendingRunIds m =
        s.pendingRunIds m := by
  have hga : getAncestors edges nodes n = [] := by
    unfold getAncestors
    simp only [getAncestorsGo, processEdges_no_match edges nodes n [] [] hmm]
    exact getAncestorsGo_nil_stack edges nodes _ []
  have hrun : nodesToRunFor edges nodes s.nodeResults n = [n] := by
    unfold nodesToRunFor
    rw [hga]
    simp [List.filter, hres]
  refine ⟨hga, hrun, ?_, ?_⟩
  · simp only [handleRunToNode, hrun]
    simp [Function.update_same]
  · intro m hm
    simp only [handleRunToNode, hrun]
    simp [Function.update_noteq hm]

/-- Witness for C10: node `Y` (id `y2`) whose incoming edge addresses it by
id rather than by normalized name; its ancestor set is empty and a run to
it marks only `Y` pending. -/
theorem ancestors_empty_on_id_name_mismatch_witness :
    getAncestors (chainEdges "x1" "y2" "z3") (chainNodes "x1" "X" "y2" "Y" "z3" "Z")
        "Y" = [] ∧
    nodesToRunFor (chainEdges "x1" "y2" "z3") (chainNodes "x1" "X" "y2" "Y" "z3" "Z")
        emptyTracker.nodeResults "Y" = ["Y"] ∧
    (handleRunToNode emptyTracker (chainNodes "x1" "X" "y2" "Y" "z3" "Z")
        (chainEdges "x1" "y2" "z3") none (fun _ => none) (fun _ => none) "Y"
        "r1").1.pendingRunIds "Y" = emptyTracker.pendingRunIds "Y" ++ ["r1"] ∧
    ∀ m, m ≠ "Y" →
      (handleRunToNode emptyTracker (chainNodes "x1" "X" "y2" "Y" "z3" "Z")
          (chainEdges "x1" "y2" "z3") none (fun _ => none) (fun _ => none) "Y"
          "r1").1.pendingRunIds m = emptyTracker.pendingRunIds m :=
  ancestors_empty_on_id_name_mismatch (chainEdges "x1" "y2" "z3")
    (chainNodes "x1" "X" "y2" "Y" "z3" "Z") emptyTracker none (fun _ => none)
    (fun _ => none) "Y" "r1" (by decide) rfl

/-! ### C3: ancestor computation -/

/-- Every name the edge scan adds to the ancestor accumulator is the name
of a non-input node of the graph. -/
lemma processEdges_anc_mem (edges : List GraphEdge) (nodes : List GraphNode)
    (current : String) (anc stack : List String) (a : String)
    (ha : a ∈ (processEdges edges nodes current anc stack).1) :
    a ∈ anc ∨ ∃ src ∈ nodes, src.name = a ∧ src.is_input_node = false := by
  induction edges generalizing anc stack with
  | nil => exact Or.inl ha
  | cons e rest ih =>
    simp only [processEdges] at ha
    split at ha
    · split at ha
      · rename_i src hfind
        split at ha
        · rename_i hcond
          rcases ih _ _ ha with hmem | hP
          · rcases List.mem_append.mp hmem with hmem | hmem
            · exact Or.inl hmem
            · exact Or.inr ⟨src, List.mem_of_find?_eq_some hfind,
                (List.mem_singleton.mp hmem).symm, hcond.1⟩
          · exact Or.inr hP
        · exact ih _ _ ha
      · exact ih _ _ ha
    · exact ih _ _ ha

/-- Every name the traversal loop returns beyond the accumulator is the
name of a non-input node. -/
lemma getAncestorsGo_anc_mem (edges : List GraphEdge) (nodes : List GraphNode)
    (fuel : Nat) (anc stack : List String) (a : String)
    (ha : a ∈ getAncestorsGo edges nodes fuel anc stack) :
    a ∈ anc ∨ ∃ src ∈ nodes, src.name = a ∧ src.is_input_node = false := by
  induction fuel generalizing anc stack with
  | zero => exact Or.inl ha
  | succ fuel ih =>
    rcases stack with _ | ⟨current, stack⟩
    · exact Or.inl ha
    · simp only [getAncestorsGo] at ha
      rcases ih _ _ ha with hmem | hP
      · exact processEdges_anc_mem edges nodes current anc stack a hmem
      · exact Or.inr hP

/-- Every member of `getAncestors` names a non-input node of the graph. -/
lemma getAncestors_mem (edges : List GraphEdge) (nodes : List GraphNode)
    (nodeName a : String) (ha : a ∈ getAncestors edges nodes nodeName) :
    ∃ src ∈ nodes, src.name = a ∧ src.is_input_node = false := by
  rcases getAncestorsGo_anc_mem edges nodes _ [] [nodeName] a ha with hmem | hP
  · cases hmem
  · exact hP

/-- The edge scan preserves distinctness of the ancestor accumulator. -/
lemma processEdges_anc_nodup (edges : List GraphEdge) (nodes : List GraphNode)
    (current : String) (anc stack : List String) (h : anc.Nodup) :
    (processEdges edges nodes current anc stack).1.Nodup := by
  induction edges generalizing anc stack with
  | nil => exact h
  | cons e rest ih =>
    simp only [processEdges]
    split
    · split
      · split
        · rename_i hcond
          exact ih _ _ (by simp [List.nodup_append, h, hcond.2])
        · exact ih _ _ h
      · exact ih _ _ h
    · exact ih _ _ h

/-- The traversal loop preserves distinctness of the accumulator. -/
lemma getAncestorsGo_nodup (edges : List GraphEdge) (nodes : List GraphNode)
    (fuel : Nat) (anc stack : List String) (h : anc.Nodup) :
    (getAncestorsGo edges nodes fuel anc stack).Nodup := by
  induction fuel generalizing anc stack with
  | zero => exact h
  | succ fuel ih =>
    rcases stack with _ | ⟨current, stack⟩
    · exact h
    · simp only [getAncestorsGo]
      exact ih _ _ (processEdges_anc_nodup edges nodes current anc stack h)

/-- `getAncestors` returns a duplicate-free list (it is materialized from
a `Set` in the source). -/
lemma getAncestors_nodup (edges : List GraphEdge) (nodes : List GraphNode)
    (nodeName : String) : (getAncestors edges nodes nodeName).Nodup :=
  getAncestorsGo_nodup edges nodes _ [] [nodeName] List.nodup_nil

/-- C3: the ancestor set is computed by the reverse traversal over the
edge list and collects only non-input nodes; in particular, for any edge
chain `Input → X → Y` (edges addressing their targets by the normalized
names, distinct ids), `ancestors(Y) = {X}` and the input node never
appears. -/
theorem ancestors_reverse_bfs_excludes_inputs
    (ia ib ic aName bName cName : String)
    (hab : ia ≠ ib) (hbc : ib ≠ ic)
    (hnb : normalizeName bName = ib) (hnc : normalizeName cName = ic) :
    getAncestors (chainEdges ia ib ic) (chainNodes ia aName ib bName ic cName)
        cName = [bName] ∧
    ∀ (edges : List GraphEdge) (nodes : List GraphNode) (n a : String),
      a ∈ getAncestors edges nodes n →
      ∃ src ∈ nodes, src.name = a ∧ src.is_input_node = false := by
  refine ⟨?_, getAncestors_mem⟩
  simp only [getAncestors, chainNodes, chainEdges, List.length_cons, List.length_nil]
  simp [getAncestorsGo, processEdges, List.find?, hnb, hnc, hab, hbc,
    Ne.symm hbc, beq_eq_false_iff_ne.mpr hab, beq_self_eq_true]

/-- Witness for C3 at the concrete chain `a (input) → b → c`. -/
theorem ancestors_reverse_bfs_excludes_inputs_witness :
    getAncestors (chainEdges "a" "b" "c") (chainNodes "a" "a" "b" "b" "c" "c")
        "c" = ["b"] ∧
    ∀ (edges : List GraphEdge) (nodes : List GraphNode) (n a : String),
      a ∈ getAncestors edges nodes n →
      ∃ src ∈ nodes, src.name = a ∧ src.is_input_node = false :=
  ancestors_reverse_bfs_excludes_inputs "a" "b" "c" "a" "b" "c"
    (by decide) (by decide) (by decide) (by decide)

/-! ### C2: badge accounting -/

/-- The per-run pending append loop leaves nodes outside the run list
untouched. -/
lemma foldl_pending_not_mem (L : List String) (p : String → List String)
    (rid m : String) (hm : m ∉ L) :
    (L.foldl (fun p n => Function.update p n (p n ++ [rid])) p) m = p m := by
  induction L generalizing p with
  | nil => rfl
  | cons n rest ih =>
    have hmn : m ≠ n := fun h => hm (by simp [h])
    simp only [List.foldl_cons]
    rw [ih _ fun h => hm (by simp [h])]
    exact Function.update_noteq hmn _ _

/-- The per-run pending append loop appends the run id exactly once to
each member of a duplicate-free run list. -/
lemma foldl_pending_mem (L : List String) (p : String → List String)
    (rid m : String) (hnd : L.Nodup) (hm : m ∈ L) :
    (L.foldl (fun p n => Function.update p n (p n ++ [rid])) p) m = p m ++ [rid] := by
  induction L generalizing p with
  | nil => cases hm
  | cons n rest ih =>
    rcases List.mem_cons.mp hm with rfl | hm'
    · have hnmem : m ∉ rest := (List.nodup_cons.mp hnd).1
      simp only [List.foldl_cons]
      rw [foldl_pending_not_mem rest _ rid m hnmem]
      exact Function.update_same _ _ _
    · have hmn : m ≠ n := fun h => (List.nodup_cons.mp hnd).1 (h ▸ hm')
      simp only [List.foldl_cons]
      rw [ih _ (List.nodup_cons.mp hnd).2 hm']
      rw [Function.update_noteq hmn]

/-- C2: for a run targeting `N` with ancestor set `A` (input nodes
excluded), when no member of `A ∪ {N}` has a recorded result, immediately
after triggering the run every member holds exactly one pending entry for
the fresh run id; each member's completion notification then drops exactly
that member's count to zero and leaves every other member's count at one,
so a member's count reaches zero only after its own completion.  Members
that already have at least one recorded result are excluded from
`nodesToRun` and receive no pending entry. -/
theorem badge_accounting (s : TrackerState) (nodes dnodes : List GraphNode)
    (edges : List GraphEdge) (value : Option CanvasData) (iv : InputMap)
    (ilv : ItemListValues) (N runId : String)
    (hrid : runId ≠ "")
    (hfresh : ∀ m, runId ∉ s.pendingRunIds m)
    (hkeys : ∀ m, completionKey runId m ∉ s.processedSet)
    (hself : N ∉ getAncestors edges nodes N)
    (hnores : ∀ m ∈ getAncestors edges nodes N ++ [N], s.nodeResults m = [])
    (hname : ∀ m ∈ getAncestors edges nodes N ++ [N], m ≠ "") :
    (∀ m ∈ getAncestors edges nodes N ++ [N],
      ((handleRunToNode s nodes edges value iv ilv N runId).1.pendingRunIds m).count
        runId = 1) ∧
    (∀ m ∈ getAncestors edges nodes N ++ [N],
      ∀ m' ∈ getAncestors edges nodes N ++ [N],
        ((processCompletion (handleRunToNode s nodes edges value iv ilv N runId).1
            (some (mkNotification runId m' dnodes))).pendingRunIds m).count runId =
          if m = m' then 0 else 1) ∧
    (∀ m, s.nodeResults m ≠ [] →
      m ∉ nodesToRunFor edges nodes s.nodeResults N ∧
      (handleRunToNode s nodes edges value iv ilv N runId).1.pendingRunIds m =
        s.pendingRunIds m) := by
  have hnd : (getAncestors edges nodes N ++ [N]).Nodup := by
    simp [List.nodup_append, getAncestors_nodup edges nodes N, hself]
  have hrunfor : nodesToRunFor edges nodes s.nodeResults N =
      getAncestors edges nodes N ++ [N] := by
    unfold nodesToRunFor
    refine List.filter_eq_self.mpr fun a ha => ?_
    simp [List.isEmpty_iff, hnores a ha]
  have hpend : (handleRunToNode s nodes edges value iv ilv N runId).1.pendingRunIds =
      (getAncestors edges nodes N ++ [N]).foldl
        (fun p n => Function.update p n (p n ++ [runId])) s.pendingRunIds := by
    simp only [handleRunToNode, hrunfor]
  have hone : ∀ m ∈ getAncestors edges nodes N ++ [N],
      ((handleRunToNode s nodes edges value iv ilv N runId).1.pendingRunIds m).count
        runId = 1 := by
    intro m hm
    rw [hpend, foldl_pending_mem _ _ _ _ hnd hm]
    simp [List.count_append, List.count_eq_zero.mpr (hfresh m)]
  refine ⟨hone, ?_, ?_⟩
  · intro m hm m' hm'
    have hproc : (handleRunToNode s nodes edges value iv ilv N runId).1.processedSet =
        s.processedSet := by
      simp only [handleRunToNode]
    have heq := processCompletion_not_consumed_eq
      (handleRunToNode s nodes edges value iv ilv N runId).1
      (mkNotification runId m' dnodes) runId m' rfl rfl hrid (hname m' hm')
      (by rw [hproc]; exact hkeys m')
    rw [heq]
    by_cases hmm : m = m'
    · subst hmm
      rw [if_pos rfl]
      simp only [Function.update_same]
      refine List.count_eq_zero.mpr fun hmem => ?_
      have := List.mem_filter.mp hmem
      simp at this
    · rw [if_neg hmm]
      simp only [Function.update_noteq hmm]
      exact hone m hm
  · intro m hm
    have hnotrun : m ∉ nodesToRunFor edges nodes s.nodeResults N := by
      intro hmem
      have := List.of_mem_filter hmem
      simp [List.isEmpty_iff] at this
      exact hm this
    refine ⟨hnotrun, ?_⟩
    have : (handleRunToNode s nodes edges value iv ilv N runId).1.pendingRunIds =
        (nodesToRunFor edges nodes s.nodeResults N).foldl
          (fun p n => Function.update p n (p n ++ [runId])) s.pendingRunIds := by
      simp only [handleRunToNode]
    rw [this, foldl_pending_not_mem _ _ _ _ hnotrun]

/-- Witness for C2 on the chain `a (input) → b → c`, run `r1` targeting
`c`: members `b` and `c` each get one pending entry, and each completion
clears only its own. -/
theorem badge_accounting_witness :
    (∀ m ∈ getAncestors demoEdges demoNodes "c" ++ ["c"],
      ((handleRunToNode emptyTracker demoNodes demoEdges (some demoValue)
          (fun _ => none) (fun _ => none) "c" "r1").1.pendingRunIds m).count
        "r1" = 1) ∧
    (∀ m ∈ getAncestors demoEdges demoNodes "c" ++ ["c"],
      ∀ m' ∈ getAncestors demoEdges demoNodes "c" ++ ["c"],
        ((processCompletion (handleRunToNode emptyTracker demoNodes demoEdges
            (some demoValue) (fun _ => none) (fun _ => none) "c" "r1").1
            (some (mkNotification "r1" m' [nodeBDone]))).pendingRunIds m).count
          "r1" = if m = m' then 0 else 1) ∧
    (∀ m, emptyTracker.nodeResults m ≠ [] →
      m ∉ nodesToRunFor demoEdges demoNodes emptyTracker.nodeResults "c" ∧
      (handleRunToNode emptyTracker demoNodes demoEdges (some demoValue)
          (fun _ => none) (fun _ => none) "c" "r1").1.pendingRunIds m =
        emptyTracker.pendingRunIds m) :=
  badge_accounting emptyTracker demoNodes [nodeBDone] demoEdges (some demoValue)
    (fun _ => none) (fun _ => none) "c" "r1" (by decide)
    (fun _ => List.not_mem_nil _) (fun _ => List.not_mem_nil _) (by decide)
    (fun _ _ => rfl) (by decide)

/-! ### C4: history monotonicity with auto-advance -/

/-- The dedup key carried by a notification. -/
def keyOf (d : CanvasData) : String :=
  completionKey (d.run_id.getD "") (d.completed_node.getD "")

/-- A completion notification for `node` that passes every ingestion
guard: a non-empty run id, `node` as the completed node, and a node entry
in the snapshot bearing at least one non-null output value. -/
def ValidFor (node : String) (d : CanvasData) : Prop :=
  node ≠ "" ∧ d.completed_node = some node ∧
  (∃ rid, d.run_id = some rid ∧ rid ≠ "") ∧
  ∃ nd, d.nodes.find? (fun n => n.name == node) = some nd ∧
    0 < nd.output_components.length ∧
    nd.output_components.any (fun c => c.value.isSome) = true

/-- The result snapshot a notification appends for `node`. -/
def snapOf (d : CanvasData) (node : String) : List GradioComponentData :=
  match d.nodes.find? (fun n => n.name == node) with
  | some nd => nd.output_components.map (fun c => c)
  | none => []

/-- One fresh valid completion appends exactly one snapshot, selects the
new last index, and consumes exactly its own dedup key. -/
lemma processCompletion_appends (s : TrackerState) (d : CanvasData) (node : String)
    (hv : ValidFor node d) (hfresh : keyOf d ∉ s.processedSet) :
    (processCompletion s (some d)).nodeResults node =
      s.nodeResults node ++ [snapOf d node] ∧
    (processCompletion s (some d)).selectedResultIndex node =
      some ((s.nodeResults node).length) ∧
    (processCompletion s (some d)).processedSet = s.processedSet ++ [keyOf d] := by
  obtain ⟨hne, hcn, ⟨rid, hrid, hrne⟩, nd, hfind, hlen, hany⟩ := hv
  have hkeyOf : keyOf d = completionKey rid node := by
    simp [keyOf, hrid, hcn]
  rw [hkeyOf] at hfresh ⊢
  rw [processCompletion_not_consumed_eq s d rid node hrid hcn hrne hne hfresh]
  refine ⟨?_, ?_, rfl⟩
  · simp only [resultAppend, hfind]
    rw [if_pos ⟨hlen, hany⟩]
    simp only [Function.update_same]
    simp [snapOf, hfind]
  · simp only [resultAppend, hfind]
    rw [if_pos ⟨hlen, hany⟩]
    simp [Function.update_same]

/-- Folding a list of pairwise-distinct, fresh, valid completions for
`node` grows the node's history by one entry per completion, keeps the
selected index at the newest entry, and consumes exactly the delivered
keys. -/
lemma hist_fold (node : String) (ds : List CanvasData) :
    ∀ s : TrackerState, (∀ d ∈ ds, ValidFor node d) →
    (ds.map keyOf).Nodup → (∀ d ∈ ds, keyOf d ∉ s.processedSet) →
    ((ds.foldl (fun st d => processCompletion st (some d)) s).nodeResults node).length =
      (s.nodeResults node).length + ds.length ∧
    (ds.foldl (fun st d => processCompletion st (some d)) s).processedSet =
      s.processedSet ++ ds.map keyOf ∧
    (ds ≠ [] →
      (ds.foldl (fun st d => processCompletion st (some d)) s).selectedResultIndex
        node = some ((s.nodeResults node).length + ds.length - 1)) := by
  induction ds with
  | nil =>
    intro s _ _ _
    simp
  | cons d rest ih =>
    intro s hv hnd hf
    obtain ⟨h1, h2, h3⟩ :=
      processCompletion_appends s d node (hv d (by simp)) (hf d (by simp))
    have hndrest : (rest.map keyOf).Nodup := (List.nodup_cons.mp (by simpa using hnd)).2
    have hf1 : ∀ d' ∈ rest, keyOf d' ∉ (processCompletion s (some d)).processedSet := by
      intro d' hd'
      rw [h3]
      simp only [List.mem_append, List.mem_singleton]
      rintro (hmem | hkk)
      · exact hf d' (by simp [hd']) hmem
      · exact (List.nodup_cons.mp (by simpa using hnd)).1 (hkk ▸ List.mem_map_of_mem keyOf hd')
    obtain ⟨ih1, ih2, ih3⟩ :=
      ih (processCompletion s (some d)) (fun d' hd' => hv d' (by simp [hd'])) hndrest hf1
    refine ⟨?_, ?_, ?_⟩
    · simp only [List.foldl_cons]
      rw [ih1, h1]
      simp only [List.length_append, List.length_cons, List.length_nil]
      omega
    · simp only [List.foldl_cons]
      rw [ih2, h3]
      simp
    · intro _
      rcases eq_or_ne rest [] with rfl | hrest
      · simpa using h2
      · simp only [List.foldl_cons]
        rw [ih3 hrest, h1]
        simp only [List.length_append, List.length_cons, List.length_nil,
          Option.some.injEq]
        omega

/-- C4: a node receiving `K` completion notifications with pairwise
distinct fresh dedup keys, each carrying at least one non-null output
value, ends with `nodeResults[node].length = K` and
`selectedResultIndex[node] = K − 1` immediately after the `K`-th
completion — the newest entry is auto-selected on every append. -/
theorem history_monotonic_auto_advance (s : TrackerState) (node : String)
    (ds : List CanvasData) (K : ℕ)
    (h0 : s.nodeResults node = [])
    (hval : ∀ d ∈ ds, ValidFor node d)
    (hnodup : (ds.map keyOf).Nodup)
    (hfresh : ∀ d ∈ ds, keyOf d ∉ s.processedSet)
    (hK : ds.length = K) (hpos : 1 ≤ K) :
    ((ds.foldl (fun st d => processCompletion st (some d)) s).nodeResults
      node).length = K ∧
    (ds.foldl (fun st d => processCompletion st (some d)) s).selectedResultIndex
      node = some (K - 1) := by
  obtain ⟨ha, _, hc⟩ := hist_fold node ds s hval hnodup hfresh
  have hne : ds ≠ [] := by
    intro h
    rw [h] at hK
    simp at hK
    omega
  refine ⟨by rw [ha, h0]; simpa using hK, ?_⟩
  rw [hc hne, h0]
  simp [hK]

/-- Witness for C4: two completions of node `b` under distinct run ids,
each carrying a non-null output, give history length 2 with index 1
selected. -/
theorem history_monotonic_auto_advance_witness :
    ((([mkNotification "r1" "b" [nodeBDone],
        mkNotification "r2" "b" [nodeBDone]].foldl
        (fun st d => processCompletion st (some d)) emptyTracker).nodeResults
      "b").length = 2 ∧
    ([mkNotification "r1" "b" [nodeBDone],
      mkNotification "r2" "b" [nodeBDone]].foldl
      (fun st d => processCompletion st (some d)) emptyTracker).selectedResultIndex
      "b" = some 1) :=
  history_monotonic_auto_advance emptyTracker "b"
    [mkNotification "r1" "b" [nodeBDone], mkNotification "r2" "b" [nodeBDone]] 2
    rfl
    (by
      intro d hd
      rcases List.mem_cons.mp hd with rfl | hd
      · exact ⟨by decide, rfl, ⟨"r1", rfl, by decide⟩, nodeBDone, rfl, by decide, rfl⟩
      rcases List.mem_cons.mp hd with rfl | hd
      · exact ⟨by decide, rfl, ⟨"r2", rfl, by decide⟩, nodeBDone, rfl, by decide, rfl⟩
      · cases hd)
    (by decide) (fun d _ => List.not_mem_nil _) rfl (by norm_num)

/-! ### C8: outbound run command contents -/

/-- The tracker state after node `b` has one recorded result (everything
else as at start-up). -/
def trackerWithBResult : TrackerState :=
  { emptyTracker with
    nodeResults := Function.update (fun _ => []) "b" [[outComp]] }

/-- C8 counterexample: two triggered runs to `c` on the same graph and the
same snapshot — one from a state where no node has a recorded result
(executing nodes `[b, c]`), one from a state where `b` has a cached result
(executing nodes `[c]`) — emit the very same outbound command.  The
command therefore cannot carry the executing-node set: contrary to the
claim, `handleRunToNode` records the executing nodes only locally in
`runIdToNodes` and includes no such field in the emitted value. -/
theorem run_command_missing_executing_nodes :
    (handleRunToNode emptyTracker demoNodes demoEdges (some demoValue)
        (fun _ => none) (fun _ => none) "c" "r1").2 =
      (handleRunToNode trackerWithBResult demoNodes demoEdges (some demoValue)
        (fun _ => none) (fun _ => none) "c" "r1").2 ∧
    nodesToRunFor demoEdges demoNodes emptyTracker.nodeResults "c" = ["b", "c"] ∧
    nodesToRunFor demoEdges demoNodes trackerWithBResult.nodeResults "c" = ["c"] := by
  refine ⟨rfl, ?_, ?_⟩ <;> decide

/-- C8 amended: the command emitted for a run to `N` carries the snapshot's
own fields together with the target node name (`run_to_node`), the freshly
minted run id, the per-node input values merged over the snapshot's, the
item-list values, a cleared `completed_node`, and the currently selected
result index for every node — but not the executing-node set, which is
recorded only locally in `runIdToNodes`. -/
theorem run_command_contents (s : TrackerState) (nodes : List GraphNode)
    (edges : List GraphEdge) (v : CanvasData) (iv : InputMap)
    (ilv : ItemListValues) (N runId : String) :
    (handleRunToNode s nodes edges (some v) iv ilv N runId).2 =
      some { v with
        inputs := mergeInputs v.inputs iv
        item_list_values := ilv
        run_to_node := some N
        run_id := some runId
        completed_node := none
        selected_results := s.selectedResultIndex } ∧
    (handleRunToNode s nodes edges (some v) iv ilv N runId).1.runIdToNodes runId =
      some (nodesToRunFor edges nodes s.nodeResults N) := by
  exact ⟨rfl, by simp [handleRunToNode, Function.update_same]⟩

/-! ### C9: fit-to-content scale -/

/-- The bounding-box fold encloses its starting accumulator and every node
rectangle of the folded list. -/
lemma contentBounds_fold_mem (nodeResults : String → List (List GradioComponentData))
    (sel : String → Option Nat) (l : List GraphNode) (acc : ℚ × ℚ × ℚ × ℚ) :
    ((l.foldl
        (fun acc node =>
          (min acc.1 node.x,
           min acc.2.1 node.y,
           max acc.2.2.1 (node.x + NODE_WIDTH),
           max acc.2.2.2 (node.y + getNodeHeight nodeResults sel node))) acc).1 ≤
        acc.1 ∧
      (l.foldl
        (fun acc node =>
          (min acc.1 node.x,
           min acc.2.1 node.y,
           max acc.2.2.1 (node.x + NODE_WIDTH),
           max acc.2.2.2 (node.y + getNodeHeight nodeResults sel node))) acc).2.1 ≤
        acc.2.1 ∧
      acc.2.2.1 ≤
        (l.foldl
          (fun acc node =>
            (min acc.1 node.x,
             min acc.2.1 node.y,
             max acc.2.2.1 (node.x + NODE_WIDTH),
             max acc.2.2.2 (node.y + getNodeHeight nodeResults sel node))) acc).2.2.1 ∧
      acc.2.2.2 ≤
        (l.foldl
          (fun acc node =>
            (min acc.1 node.x,
             min acc.2.1 node.y,
             max acc.2.2.1 (node.x + NODE_WIDTH),
             max acc.2.2.2 (node.y + getNodeHeight nodeResults sel node))) acc).2.2.2) ∧
    ∀ nd ∈ l,
      (l.foldl
        (fun acc node =>
          (min acc.1 node.x,
           min acc.2.1 node.y,
           max acc.2.2.1 (node.x + NODE_WIDTH),
           max acc.2.2.2 (node.y + getNodeHeight nodeResults sel node))) acc).1 ≤
        nd.x ∧
      (l.foldl
        (fun acc node =>
          (min acc.1 node.x,
           min acc.2.1 node.y,
           max acc.2.2.1 (node.x + NODE_WIDTH),
           max acc.2.2.2 (node.y + getNodeHeight nodeResults sel node))) acc).2.1 ≤
        nd.y ∧
      nd.x + NODE_WIDTH ≤
        (l.foldl
          (fun acc node =>
            (min acc.1 node.x,
             min acc.2.1 node.y,
             max acc.2.2.1 (node.x + NODE_WIDTH),
             max acc.2.2.2 (node.y + getNodeHeight nodeResults sel node))) acc).2.2.1 ∧
      nd.y + getNodeHeight nodeResults sel nd ≤
        (l.foldl
          (fun acc node =>
            (min acc.1 node.x,
             min acc.2.1 node.y,
             max acc.2.2.1 (node.x + NODE_WIDTH),
             max acc.2.2.2 (node.y + getNodeHeight nodeResults sel node))) acc).2.2.2 := by
  induction l generalizing acc with
  | nil => simp
  | cons nd0 rest ih =>
    obtain ⟨⟨m1, m2, m3, m4⟩, hmem⟩ :=
      ih (min acc.1 nd0.x, min acc.2.1 nd0.y, max acc.2.2.1 (nd0.x + NODE_WIDTH),
        max acc.2.2.2 (nd0.y + getNodeHeight nodeResults sel nd0))
    simp only [List.foldl_cons]
    refine ⟨⟨le_trans m1 (min_le_left _ _), le_trans m2 (min_le_left _ _),
      le_trans (le_max_left _ _) m3, le_trans (le_max_left _ _) m4⟩, ?_⟩
    intro nd hnd
    rcases List.mem_cons.mp hnd with rfl | hnd'
    · exact ⟨le_trans m1 (min_le_right _ _), le_trans m2 (min_le_right _ _),
        le_trans (le_max_right _ _) m3, le_trans (le_max_right _ _) m4⟩
    · exact hmem nd hnd'

/-- C9 amended: with zero nodes or an unmeasured canvas element the fit
operation is a no-op; otherwise it sets
`scale = max(0.2, min((viewportWidth − 2·40)/contentWidth,
(viewportHeight − 2·40)/contentHeight, 1.5))` — the viewport is first
shrunk by the 40-unit padding on each side, which the claim's formula
omits — where `(contentWidth, contentHeight)` are the dimensions of the
union bounding box enclosing every node rectangle. -/
theorem fit_to_content_scale (t : Transform)
    (nodeResults : String → List (List GradioComponentData))
    (sel : String → Option Nat) (n0 : GraphNode) (rest nodes : List GraphNode)
    (cs : Option (ℚ × ℚ)) (w h : ℚ) :
    zoomToFit t [] nodeResults sel cs = t ∧
    zoomToFit t nodes nodeResults sel none = t ∧
    (zoomToFit t (n0 :: rest) nodeResults sel (some (w, h))).scale =
      max (1 / 5) (min (min
        ((w - 40 * 2) /
          ((contentBounds nodeResults sel n0 rest).2.2.1 -
            (contentBounds nodeResults sel n0 rest).1))
        ((h - 40 * 2) /
          ((contentBounds nodeResults sel n0 rest).2.2.2 -
            (contentBounds nodeResults sel n0 rest).2.1)))
        (3 / 2)) ∧
    ∀ nd ∈ n0 :: rest,
      (contentBounds nodeResults sel n0 rest).1 ≤ nd.x ∧
      (contentBounds nodeResults sel n0 rest).2.1 ≤ nd.y ∧
      nd.x + NODE_WIDTH ≤ (contentBounds nodeResults sel n0 rest).2.2.1 ∧
      nd.y + getNodeHeight nodeResults sel nd ≤
        (contentBounds nodeResults sel n0 rest).2.2.2 := by
  refine ⟨by cases cs with | none => rfl | some p => rfl, by cases nodes <;> rfl,
    rfl, ?_⟩
  intro nd hnd
  obtain ⟨⟨m1, m2, m3, m4⟩, hmem⟩ := contentBounds_fold_mem nodeResults sel rest
    (n0.x, n0.y, n0.x + NODE_WIDTH, n0.y + getNodeHeight nodeResults sel n0)
  rcases List.mem_cons.mp hnd with rfl | hnd'
  · exact ⟨m1, m2, m3, m4⟩
  · exact hmem nd hnd'

/-- A bare non-input node with no ports and no components, at the
origin. -/
def plainNode : GraphNode :=
  { id := "n", name := "n", inputs := [], outputs := [], input_components := [],
    output_components := [], x := 0, y := 0, is_input_node := false }

/-- The claim's fit-scale formula, modelled from the claim's words:
`scale = min(viewportWidth/contentWidth, viewportHeight/contentHeight, 1.5)`,
clamped below at the global minimum 0.2. -/
def fitScaleClaim (vw vh cw ch : ℚ) : ℚ :=
  max (1 / 5) (min (min (vw / cw) (vh / ch)) (3 / 2))

/-- C9 counterexample: one bare node (rectangle 220 × 75) in a 300 × 300
viewport.  The code sets scale 1 (it divides the viewport minus the
2·40-unit padding by the content size), while the claim's formula
`min(300/220, 300/75, 1.5)` yields 15/11. -/
theorem fit_scale_ignores_padding_counterexample :
    (zoomToFit ⟨0, 0, 1⟩ [plainNode] emptyTracker.nodeResults
        emptyTracker.selectedResultIndex (some (300, 300))).scale = 1 ∧
    (contentBounds emptyTracker.nodeResults emptyTracker.selectedResultIndex
        plainNode []).2.2.1 -
      (contentBounds emptyTracker.nodeResults emptyTracker.selectedResultIndex
        plainNode []).1 = 220 ∧
    (contentBounds emptyTracker.nodeResults emptyTracker.selectedResultIndex
        plainNode []).2.2.2 -
      (contentBounds emptyTracker.nodeResults emptyTracker.selectedResultIndex
        plainNode []).2.1 = 75 ∧
    fitScaleClaim 300 300 220 75 = 15 / 11 ∧
    (1 : ℚ) ≠ 15 / 11 := by
  refine ⟨?_, ?_, ?_, ?_, by norm_num⟩ <;>
    norm_num [zoomToFit, contentBounds, getNodeHeight, getComponentsToRender,
      getSelectedResults, fitScaleClaim, plainNode, emptyTracker, NODE_WIDTH,
      HEADER_HEIGHT, HEADER_BORDER, BODY_PADDING_TOP, PORT_ROW_HEIGHT,
      EMBEDDED_COMPONENT_HEIGHT]

end Daggr
